import Mathlib

/-!
Verification of the Spectral-Band Surface Parcellation & Coverage Engine
(`utils.py`, `spangy_analysis.py`) against its natural-language specification.

The Python functions are shallowly embedded: floating-point numbers become
exact reals, numpy boolean masks become `List Bool`, and a division whose
divisor is zero — which in the source yields an invalid result (a NaN from a
numpy division, or a raised `ZeroDivisionError` for plain floats) — is
modelled by `Option.none`.
-/

namespace Spangy

/-! ## Data model: meshes -/

/-- A 3-D vector (one vertex position). -/
structure Vec3 where
  x : ℝ
  y : ℝ
  z : ℝ

/-- Componentwise difference `a - b` of two vertex positions. -/
def vsub (a b : Vec3) : Vec3 :=
  ⟨a.x - b.x, a.y - b.y, a.z - b.z⟩

/-- The cross product `np.cross a b`. -/
def cross (a b : Vec3) : Vec3 :=
  ⟨a.y * b.z - a.z * b.y, a.z * b.x - a.x * b.z, a.x * b.y - a.y * b.x⟩

/-- Squared Euclidean norm of a 3-D vector. -/
def sqNorm (a : Vec3) : ℝ :=
  a.x ^ 2 + a.y ^ 2 + a.z ^ 2

/-- Euclidean norm `np.linalg.norm a`. -/
noncomputable def norm3 (a : Vec3) : ℝ :=
  Real.sqrt (sqNorm a)

/-- A triangulated mesh: vertex positions and triangular faces
(each face a triple of vertex indices). -/
structure Mesh where
  vertices : List Vec3
  faces : List (ℕ × ℕ × ℕ)

/-- Vertex lookup `mesh.vertices[i]` (out-of-range indices, which would raise
in the source, resolve to the origin; every claim below uses in-range faces). -/
def vertexAt (m : Mesh) (i : ℕ) : Vec3 :=
  m.vertices.getD i ⟨0, 0, 0⟩

/-- Area of one triangular face, exactly as `calculate_band_coverage` computes
it: `0.5 * np.linalg.norm(np.cross(v2 - v1, v3 - v1))`. -/
noncomputable def faceArea (m : Mesh) (f : ℕ × ℕ × ℕ) : ℝ :=
  let v1 := vertexAt m f.1
  let v2 := vertexAt m f.2.1
  let v3 := vertexAt m f.2.2
  (1 / 2) * norm3 (cross (vsub v2 v1) (vsub v3 v1))

/-- Total surface area `mesh.area` of a trimesh mesh: the sum of its
triangle areas. -/
noncomputable def meshArea (m : Mesh) : ℝ :=
  (m.faces.map (faceArea m)).sum

/-- Division as the source performs it on floats: a zero divisor produces an
invalid result (NaN or a raised `ZeroDivisionError`), modelled as `none`. -/
noncomputable def fdiv (a b : ℝ) : Option ℝ :=
  if b = 0 then none else some (a / b)

/-! ## `calculate_parcels_per_band` (utils.py lines 70-104)

The source builds, for each band index `i` in `range(levels)`, the 1-D binary
mask `loc_dom_band == i` and applies `scipy.ndimage.label` to it.  On a 1-D
array `ndimage.label` assigns one label per maximal run of consecutive
nonzero entries, so the returned component count is the number of maximal
runs of `true` in the mask. -/

/-- Number of maximal runs of `true` in a boolean list, given the value of
the preceding entry: the run count `scipy.ndimage.label` returns on a 1-D
binary array. -/
def countRunsAux : List Bool → Bool → ℕ
  | [], _ => 0
  | b :: rest, prev => (if b && !prev then 1 else 0) + countRunsAux rest b

/-- Component count of `scipy.ndimage.label` on a 1-D binary mask: the number
of maximal runs of consecutive `true` entries. -/
def ndimageLabelCount (mask : List Bool) : ℕ :=
  countRunsAux mask false

/-- The binary mask `loc_dom_band == i` over the per-vertex label array. -/
def bandMask (labels : List ℤ) (i : ℤ) : List Bool :=
  labels.map (fun x => x == i)

/-- The parcel count the source computes for one band: 0 when the mask is
empty (`np.sum(band_mask) == 0`), otherwise the `ndimage.label` run count. -/
def parcelsForBand (labels : List ℤ) (i : ℤ) : ℕ :=
  let mask := bandMask labels i
  if mask.count true = 0 then 0 else ndimageLabelCount mask

/-- `calculate_parcels_per_band(loc_dom_band, levels)`: one parcel count per
band index `i ∈ range(levels)`. -/
def calculate_parcels_per_band (labels : List ℤ) (levels : ℕ) : List ℕ :=
  (List.range levels).map (fun (i : ℕ) => parcelsForBand labels (i : ℤ))

/-! ### Reference semantics for parcels, from the specification

The spec (§4.1-4.2) requires parcel counts to be connected components under
the mesh-adjacency graph derived from the face list.  The following
definitions formalise that description so it can be compared with what the
source computes. -/

/-- The undirected edges contributed by a triangular face list: each face
yields its three edges. -/
def faceEdges (faces : List (ℕ × ℕ × ℕ)) : List (ℕ × ℕ) :=
  faces.flatMap (fun f => [(f.1, f.2.1), (f.2.1, f.2.2), (f.1, f.2.2)])

/-- Merge the component classes of the two endpoints of one edge: every
vertex in the first endpoint's class is relabelled into the second's. -/
def mergeClasses (lab : List ℕ) (e : ℕ × ℕ) : List ℕ :=
  let la := lab.getD e.1 e.1
  let lb := lab.getD e.2 e.2
  lab.map (fun c => if c = la then lb else c)

/-- Component class labels of the graph on `n` vertices with the given edge
list: start from singleton classes and merge along each edge. -/
def componentLabels (n : ℕ) (edges : List (ℕ × ℕ)) : List ℕ :=
  edges.foldl mergeClasses (List.range n)

/-- Modelled from the spec (§4.1-4.2): the number of maximal connected
components, under the mesh adjacency derived from the face list, of the set
of vertices carrying the target band label. -/
def specParcelCount (faces : List (ℕ × ℕ × ℕ)) (labels : List ℤ) (band : ℤ) : ℕ :=
  let n := labels.length
  let verts := (List.range n).filter (fun v => labels.getD v (band - 1) == band)
  let edges := (faceEdges faces).filter (fun e => verts.contains e.1 && verts.contains e.2)
  let lab := componentLabels n edges
  ((verts.map (fun v => lab.getD v v)).dedup).length

/-! ## Claim C1 -/

/-- C1: the claim that `calculate_parcels_per_band` counts maximal connected
components under mesh adjacency, invariantly under vertex permutation, fails
on the code.  On the label array `[1, 0, 1]` over the single face `(0,1,2)`,
band 1 occupies vertices 0 and 2, which are mesh-adjacent, so the
spec-mandated count is 1; the code, which never receives the mesh and labels
runs of consecutive indices via 1-D `ndimage.label`, returns 2.  Swapping
vertices 1 and 2 (labels become `[1, 1, 0]`, face becomes `(0,2,1)`) changes
the code's count for band 1 to 1, so the count is not invariant under vertex
permutation either. -/
theorem C1_parcels_not_mesh_components :
    calculate_parcels_per_band [1, 0, 1] 2 = [1, 2] ∧
    specParcelCount [(0, 1, 2)] [1, 0, 1] 1 = 1 ∧
    calculate_parcels_per_band [1, 1, 0] 2 = [1, 1] := by
  refine ⟨?_, ?_, ?_⟩ <;> decide

/-! ## `calculate_band_wavelength` (utils.py lines 34-68) -/

/-- The arithmetic mean `np.mean` of a list of reals. -/
noncomputable def listMean (l : List ℝ) : ℝ :=
  l.sum / l.length

/-- The per-eigenvalue frequencies of one band:
`np.sqrt(eigVal[indices] / (2 * np.pi))`. -/
noncomputable def bandFrequencies (eigVal : List ℝ) (indices : List ℕ) : List ℝ :=
  indices.map (fun i => Real.sqrt (eigVal.getD i 0 / (2 * Real.pi)))

/-- `calculate_band_wavelength(eigVal, group_indices)`: for each index group,
0 when the group is empty; otherwise the frequencies are averaged and the
wavelength is `1 / mean` when the mean is positive, else 0. -/
noncomputable def calculate_band_wavelength (eigVal : List ℝ)
    (group_indices : List (List ℕ)) : List ℝ :=
  group_indices.map (fun indices =>
    if indices.length = 0 then 0
    else
      let freqs := bandFrequencies eigVal indices
      if listMean freqs > 0 then 1 / listMean freqs else 0)

/-- Modelled from the spec (§4.4), word for word: per band, frequencies
`f = sqrt(eigenvalue / (2π))` over the band's indices are averaged and the
wavelength is `1 / average`; an empty index group yields 0, and an average
frequency of exactly 0 also yields 0. -/
noncomputable def specBandWavelength (eigVal : List ℝ)
    (group_indices : List (List ℕ)) : List ℝ :=
  group_indices.map (fun indices =>
    if indices = [] then 0
    else
      let avg := listMean (indices.map (fun i => Real.sqrt (eigVal.getD i 0 / (2 * Real.pi))))
      if avg = 0 then 0 else 1 / avg)

/-- Every frequency is a square root, hence nonnegative. -/
lemma bandFrequencies_nonneg (eigVal : List ℝ) (indices : List ℕ) :
    ∀ x ∈ bandFrequencies eigVal indices, 0 ≤ x := by
  intro x hx
  simp only [bandFrequencies, List.mem_map] at hx
  obtain ⟨i, _, rfl⟩ := hx
  exact Real.sqrt_nonneg _

/-- The mean of a list of nonnegative reals is nonnegative. -/
lemma listMean_nonneg (l : List ℝ) (h : ∀ x ∈ l, 0 ≤ x) : 0 ≤ listMean l := by
  have hs : 0 ≤ l.sum := List.sum_nonneg h
  have hn : (0 : ℝ) ≤ l.length := by positivity
  exact div_nonneg hs hn

/-! ## Claim C5 -/

/-- C5: `calculate_band_wavelength` computes exactly what the spec's formula
and edge cases describe: per band, frequencies `sqrt(eigenvalue/(2π))` are
averaged and inverted, an empty index group yields 0, and an average
frequency of exactly 0 yields 0.  The code's guard `mean > 0` coincides with
the spec's `mean = 0` edge case because each frequency is a square root and
hence nonnegative. -/
theorem C5_wavelength_matches_spec (eigVal : List ℝ) (group_indices : List (List ℕ)) :
    calculate_band_wavelength eigVal group_indices = specBandWavelength eigVal group_indices := by
  unfold calculate_band_wavelength specBandWavelength
  refine List.map_congr_left ?_
  intro indices _
  by_cases hemp : indices = []
  · simp [hemp]
  · have hlen : indices.length ≠ 0 := by simpa using hemp
    have hfold : indices.map (fun i => Real.sqrt (eigVal.getD i 0 / (2 * Real.pi)))
        = bandFrequencies eigVal indices := rfl
    simp only [hlen, if_neg hemp, if_false, hfold]
    have hnn : 0 ≤ listMean (bandFrequencies eigVal indices) :=
      listMean_nonneg _ (bandFrequencies_nonneg eigVal indices)
    rcases lt_or_eq_of_le hnn with hpos | hzero
    · rw [if_pos hpos, if_neg (ne_of_gt hpos)]
    · rw [if_neg (by rw [← hzero]; exact lt_irrefl (0 : ℝ)), if_pos hzero.symm]

/-! ## Claim C4 -/

/-- The eigenvalue sequence of the spec's wavelength scenario. -/
noncomputable def scenarioEigVal : List ℝ :=
  [0, 4 * Real.pi, 16 * Real.pi]

/-- The band index groups of the spec's wavelength scenario. -/
def scenarioGroups : List (List ℕ) :=
  [[0], [1], [2]]

/-- Evaluation of the wavelength estimator on the scenario input:
`16π / (2π) = 8`, so the third frequency is `sqrt 8` and the third
wavelength is `1 / sqrt 8`. -/
lemma scenario_wavelengths_eval :
    calculate_band_wavelength scenarioEigVal scenarioGroups
      = [0, 1 / Real.sqrt 2, 1 / Real.sqrt 8] := by
  have hpi := Real.pi_ne_zero
  have h2 : (4 * Real.pi) / (2 * Real.pi) = 2 := by field_simp; ring
  have h8 : (16 * Real.pi) / (2 * Real.pi) = 8 := by field_simp; ring
  have hs2 : (0 : ℝ) < Real.sqrt 2 := Real.sqrt_pos.mpr (by norm_num)
  have hs8 : (0 : ℝ) < Real.sqrt 8 := Real.sqrt_pos.mpr (by norm_num)
  simp only [calculate_band_wavelength, scenarioEigVal, scenarioGroups, List.map_cons,
    List.map_nil, bandFrequencies, listMean, List.getD_cons_zero, List.getD_cons_succ,
    List.sum_cons, List.sum_nil, List.length_cons, List.length_nil]
  norm_num [h2, h8, Real.sqrt_zero, hs2, hs8]

/-- C4 counterexample: on the scenario input the claimed output
`[0, 1/sqrt 2, 1/sqrt 4]` differs from what the code returns, because
`1 / sqrt 8 ≠ 1 / sqrt 4`. -/
theorem C4_scenario_claim_false :
    calculate_band_wavelength scenarioEigVal scenarioGroups
      ≠ [0, 1 / Real.sqrt 2, 1 / Real.sqrt 4] := by
  rw [scenario_wavelengths_eval]
  intro h
  have hs8 : (0 : ℝ) < Real.sqrt 8 := Real.sqrt_pos.mpr (by norm_num)
  have hs4 : (0 : ℝ) < Real.sqrt 4 := Real.sqrt_pos.mpr (by norm_num)
  have h3 : 1 / Real.sqrt 8 = 1 / Real.sqrt 4 := by
    injection h with h1 htail
    injection htail with h2 htail2
    injection htail2 with h3 _
  have h8eq4 : Real.sqrt 8 = Real.sqrt 4 := by
    field_simp at h3
    linarith
  have : (8 : ℝ) = 4 := by
    have hsq := congrArg (fun x : ℝ => x ^ 2) h8eq4
    simp only [Real.sq_sqrt (by norm_num : (0:ℝ) ≤ 8),
      Real.sq_sqrt (by norm_num : (0:ℝ) ≤ 4)] at hsq
    exact hsq
  norm_num at this

/-- C4 amended: on the eigenvalue sequence `[0, 4π, 16π]` with band groups
`{[0]}, {[1]}, {[2]}`, `calculate_band_wavelength` returns exactly
`[0, 1/sqrt 2, 1/sqrt 8]` — the third wavelength is `1/sqrt 8`
(= `1/(2 sqrt 2)`), not `1/sqrt 4`, because `16π / (2π) = 8`. -/
theorem C4_amended_scenario_wavelengths :
    calculate_band_wavelength scenarioEigVal scenarioGroups
      = [0, 1 / Real.sqrt 2, 1 / Real.sqrt 8] :=
  scenario_wavelengths_eval

/-! ## `calculate_band_coverage` (utils.py lines 106-140) -/

/-- The boolean mask `band_vertices = loc_dom_band == band_idx`. -/
def bandVertices (labels : List ℤ) (b : ℤ) : List Bool :=
  labels.map (fun x => x == b)

/-- `num_vertices = np.sum(band_vertices)`: the number of vertices whose
dominant band is `b`. -/
def bandNumVertices (labels : List ℤ) (b : ℤ) : ℕ :=
  (bandVertices labels b).count true

/-- The test `any(band_vertices[face])`: at least one of the face's three
vertices carries band `b` (an index outside the mask reads as `false`). -/
def faceInBand (labels : List ℤ) (b : ℤ) (f : ℕ × ℕ × ℕ) : Bool :=
  (bandVertices labels b).getD f.1 false ||
  (bandVertices labels b).getD f.2.1 false ||
  (bandVertices labels b).getD f.2.2 false

/-- The `total_area` accumulation loop: starting from 0, each face whose mask
test succeeds adds its triangle area. -/
noncomputable def bandTotalArea (m : Mesh) (labels : List ℤ) (b : ℤ) : ℝ :=
  m.faces.foldl (fun acc f => if faceInBand labels b f then acc + faceArea m f else acc) 0

/-- `calculate_band_coverage(mesh, loc_dom_band, band_idx)`: vertex count,
vertex percentage, covered area, area percentage.  The two percentages are
unguarded float divisions, so they are `none` when the respective divisor
(vertex count of the array, total mesh area) is zero. -/
noncomputable def calculate_band_coverage (m : Mesh) (labels : List ℤ) (b : ℤ) :
    ℕ × Option ℝ × ℝ × Option ℝ :=
  let num := bandNumVertices labels b
  let vertexPercentage := (fdiv (num : ℝ) (labels.length : ℝ)).map (fun q => q * 100)
  let totalArea := bandTotalArea m labels b
  let areaPercentage := (fdiv totalArea (meshArea m)).map (fun q => q * 100)
  (num, vertexPercentage, totalArea, areaPercentage)

/-! ## `get_hull_area` and `get_gyrification_index` (utils.py lines 9-32)

The convex hull itself is built by the external `trimesh` collaborator; the
embedding therefore takes the hull mesh as an input, as the spec's contract
does.  Both areas pass through `float(...)`, so the division is a plain
Python float division and a zero divisor raises `ZeroDivisionError`,
modelled as `none`. -/

/-- `get_hull_area`: the area of the (externally constructed) convex hull. -/
noncomputable def get_hull_area (hull : Mesh) : ℝ :=
  meshArea hull

/-- `get_gyrification_index`: mesh area divided by hull area, paired with
the hull area; `none` models the `ZeroDivisionError` raised when the hull
area is zero. -/
noncomputable def get_gyrification_index (m hull : Mesh) : Option (ℝ × ℝ) :=
  let hullArea := get_hull_area hull
  (fdiv (meshArea m) hullArea).map (fun gi => (gi, hullArea))

/-! ## Helper lemmas on areas -/

/-- Each face area is half a Euclidean norm, hence nonnegative. -/
lemma faceArea_nonneg (m : Mesh) (f : ℕ × ℕ × ℕ) : 0 ≤ faceArea m f := by
  unfold faceArea norm3
  positivity

/-- The total mesh area is a sum of nonnegative face areas. -/
lemma meshArea_nonneg (m : Mesh) : 0 ≤ meshArea m := by
  apply List.sum_nonneg
  intro x hx
  obtain ⟨f, _, rfl⟩ := List.mem_map.mp hx
  exact faceArea_nonneg m f

/-- A list of nonnegative reals with zero sum is identically zero. -/
lemma eq_zero_of_mem_of_sum_eq_zero {l : List ℝ} (hnn : ∀ x ∈ l, 0 ≤ x)
    (hsum : l.sum = 0) : ∀ x ∈ l, x = 0 := by
  induction l with
  | nil => intro x hx; cases hx
  | cons a t ih =>
    have ha : 0 ≤ a := hnn a (List.mem_cons_self a t)
    have ht : ∀ x ∈ t, 0 ≤ x := fun x hx => hnn x (List.mem_cons_of_mem a hx)
    have htsum : 0 ≤ t.sum := List.sum_nonneg ht
    have hsum' : a + t.sum = 0 := by simpa using hsum
    have ha0 : a = 0 := by linarith
    have ht0 : t.sum = 0 := by linarith
    intro x hx
    rcases List.mem_cons.mp hx with rfl | hx'
    · exact ha0
    · exact ih ht ht0 x hx'

/-- The accumulation loop over faces equals the sum of the areas of the
faces passing the mask test, shifted by the initial accumulator. -/
lemma bandTotalArea_foldl (m : Mesh) (labels : List ℤ) (b : ℤ) :
    ∀ (fs : List (ℕ × ℕ × ℕ)) (acc : ℝ),
      fs.foldl (fun acc f => if faceInBand labels b f then acc + faceArea m f else acc) acc
        = acc + ((fs.filter (faceInBand labels b)).map (faceArea m)).sum := by
  intro fs
  induction fs with
  | nil => intro acc; simp
  | cons f t ih =>
    intro acc
    by_cases hf : faceInBand labels b f
    · simp only [List.foldl_cons, if_pos hf, List.filter_cons_of_pos hf,
        List.map_cons, List.sum_cons, ih]
      ring
    · simp only [List.foldl_cons, if_neg hf, List.filter_cons_of_neg hf, ih]

/-- `bandTotalArea` as a filtered sum: the covered area is the sum of the
areas of precisely those faces with at least one vertex in the band. -/
lemma bandTotalArea_eq_filter_sum (m : Mesh) (labels : List ℤ) (b : ℤ) :
    bandTotalArea m labels b
      = ((m.faces.filter (faceInBand labels b)).map (faceArea m)).sum := by
  unfold bandTotalArea
  rw [bandTotalArea_foldl]
  ring

/-- When the whole mesh has zero area, every face area is zero, so every
band's covered area is zero as well. -/
lemma bandTotalArea_eq_zero_of_meshArea_eq_zero (m : Mesh) (labels : List ℤ) (b : ℤ)
    (h : meshArea m = 0) : bandTotalArea m labels b = 0 := by
  have hall : ∀ x ∈ m.faces.map (faceArea m), x = 0 := by
    apply eq_zero_of_mem_of_sum_eq_zero
    · intro x hx
      obtain ⟨f, _, rfl⟩ := List.mem_map.mp hx
      exact faceArea_nonneg m f
    · exact h
  rw [bandTotalArea_eq_filter_sum]
  apply List.sum_eq_zero
  intro x hx
  obtain ⟨f, hf, rfl⟩ := List.mem_map.mp hx
  exact hall _ (List.mem_map_of_mem _ (List.mem_of_mem_filter hf))

/-! ## Concrete test meshes -/

/-- A single right triangle with legs of length 1: vertices
`(0,0,0), (1,0,0), (0,1,0)`, one face, exact area `1/2`. -/
def unitTriangle : Mesh :=
  ⟨[⟨0, 0, 0⟩, ⟨1, 0, 0⟩, ⟨0, 1, 0⟩], [(0, 1, 2)]⟩

/-- A degenerate mesh: three coincident vertices carrying one face of zero
area, hence total surface area 0. -/
def degMesh : Mesh :=
  ⟨[⟨0, 0, 0⟩, ⟨0, 0, 0⟩, ⟨0, 0, 0⟩], [(0, 1, 2)]⟩

/-- The single face of `unitTriangle` has area `1/2`. -/
lemma unitTriangle_area : meshArea unitTriangle = 1 / 2 := by
  simp only [meshArea, unitTriangle, faceArea, vertexAt, vsub, cross, sqNorm, norm3,
    List.map_cons, List.map_nil, List.sum_cons, List.sum_nil, List.getD_cons_zero,
    List.getD_cons_succ]
  norm_num

/-- The degenerate mesh has total surface area 0. -/
lemma degMesh_area : meshArea degMesh = 0 := by
  simp only [meshArea, degMesh, faceArea, vertexAt, vsub, cross, sqNorm, norm3,
    List.map_cons, List.map_nil, List.sum_cons, List.sum_nil, List.getD_cons_zero,
    List.getD_cons_succ]
  norm_num

/-! ## Claim C2 -/

/-- C2 counterexample: on a zero-area mesh, `calculate_band_coverage` does
not report an area percentage of 0 — the unguarded division
`total_area / mesh.area` has a zero divisor, so the percentage is an invalid
result (`none`, a NaN in the source), not `some 0`. -/
theorem C2_zero_area_counterexample :
    meshArea degMesh = 0 ∧
    (calculate_band_coverage degMesh [1, 1, 1] 1).2.2.2 = none := by
  refine ⟨degMesh_area, ?_⟩
  simp [calculate_band_coverage, fdiv, degMesh_area]

/-- C2 amended: for every mesh of total surface area zero and every band,
the covered area is 0, but the area percentage is the unguarded quotient
`0 / 0` — an invalid division-by-zero result (`none`), not 0. -/
theorem C2_zero_area_amended (m : Mesh) (labels : List ℤ) (b : ℤ)
    (h : meshArea m = 0) :
    (calculate_band_coverage m labels b).2.2.1 = 0 ∧
    (calculate_band_coverage m labels b).2.2.2 = none := by
  constructor
  · simpa [calculate_band_coverage] using
      bandTotalArea_eq_zero_of_meshArea_eq_zero m labels b h
  · simp [calculate_band_coverage, fdiv, h]

/-- Witness for C2's amended theorem at the concrete degenerate mesh. -/
theorem C2_zero_area_amended_witness :
    (calculate_band_coverage degMesh [1, 1, 1] 1).2.2.1 = 0 ∧
    (calculate_band_coverage degMesh [1, 1, 1] 1).2.2.2 = none :=
  C2_zero_area_amended degMesh [1, 1, 1] 1 degMesh_area

/-! ## Claim C3 -/

/-- C3: whenever the hull area is at most 0 (it is a sum of triangle areas,
hence at least 0, so this means exactly 0), `get_gyrification_index` fails
explicitly — the plain float division raises `ZeroDivisionError`, modelled
as `none` — rather than returning a ratio; and whenever the hull area is
positive it returns the ratio of mesh area to hull area together with the
hull area. -/
theorem C3_gyrification_explicit_failure (m hull : Mesh) :
    (get_hull_area hull ≤ 0 → get_gyrification_index m hull = none) ∧
    (0 < get_hull_area hull →
      get_gyrification_index m hull
        = some (meshArea m / get_hull_area hull, get_hull_area hull)) := by
  constructor
  · intro hle
    have h0 : get_hull_area hull = 0 :=
      le_antisymm hle (meshArea_nonneg hull)
    simp [get_gyrification_index, fdiv, get_hull_area, h0,
      show meshArea hull = 0 from h0]
  · intro hpos
    have hne : get_hull_area hull ≠ 0 := ne_of_gt hpos
    simp only [get_gyrification_index, fdiv, get_hull_area] at hne ⊢
    rw [if_neg hne]
    rfl

/-- Witness for C3 at concrete hulls: the degenerate hull (area 0) makes
the call fail, and the unit-triangle hull (area `1/2 > 0`) yields the
ratio and the hull area. -/
theorem C3_gyrification_explicit_failure_witness :
    get_gyrification_index unitTriangle degMesh = none ∧
    get_gyrification_index unitTriangle unitTriangle
      = some (meshArea unitTriangle / get_hull_area unitTriangle,
          get_hull_area unitTriangle) :=
  ⟨(C3_gyrification_explicit_failure unitTriangle degMesh).1
      (by rw [get_hull_area, degMesh_area]),
    (C3_gyrification_explicit_failure unitTriangle unitTriangle).2
      (by rw [get_hull_area, unitTriangle_area]; norm_num)⟩

/-! ## Claim C6 -/

/-- C6: a face's full triangle area counts toward a band exactly when at
least one of its three vertices carries the band's label (the covered area
is the sum of the areas of precisely the faces passing that test), and on a
single unit right triangle with all three vertices labelled band 1 the
analyzer returns vertex count 3, vertex percentage 100, area `1/2` (the
triangle's exact area), and area percentage 100. -/
theorem C6_inclusive_area_attribution :
    (∀ (m : Mesh) (labels : List ℤ) (b : ℤ),
      bandTotalArea m labels b
        = ((m.faces.filter (faceInBand labels b)).map (faceArea m)).sum) ∧
    calculate_band_coverage unitTriangle [1, 1, 1] 1 = (3, some 100, 1 / 2, some 100) := by
  refine ⟨bandTotalArea_eq_filter_sum, ?_⟩
  have harea : meshArea unitTriangle = 1 / 2 := unitTriangle_area
  have htot : bandTotalArea unitTriangle [1, 1, 1] 1 = 1 / 2 := by
    rw [bandTotalArea_eq_filter_sum]
    have hface : faceInBand [1, 1, 1] 1 (0, 1, 2) = true := by decide
    simp only [unitTriangle, List.filter_cons_of_pos hface, List.filter_nil,
      List.map_cons, List.map_nil, List.sum_cons, List.sum_nil]
    have := unitTriangle_area
    simp only [meshArea, unitTriangle, List.map_cons, List.map_nil, List.sum_cons,
      List.sum_nil] at this
    linarith
  have hnum : bandNumVertices [1, 1, 1] 1 = 3 := by decide
  simp only [calculate_band_coverage, hnum, htot, harea, fdiv]
  norm_num

/-! ## Helper lemmas on band masks -/

/-- A band carried by no vertex has an all-false mask: no `true` entry. -/
lemma bandMask_count_true_eq_zero {labels : List ℤ} {b : ℤ} (h : b ∉ labels) :
    (bandMask labels b).count true = 0 := by
  rw [List.count_eq_zero]
  intro hmem
  simp only [bandMask, List.mem_map] at hmem
  obtain ⟨x, hx, heq⟩ := hmem
  have hxb : x = b := by simpa using heq
  exact h (hxb ▸ hx)

/-- Reading the mask of an absent band at any index gives `false`, whether
the index is in range or not. -/
lemma bandMask_getD_false {labels : List ℤ} {b : ℤ} (h : b ∉ labels) (j : ℕ) :
    (bandMask labels b).getD j false = false := by
  by_cases hj : j < (bandMask labels b).length
  · rw [List.getD_eq_getElem _ _ hj]
    have hmem : (bandMask labels b)[j] ∈ bandMask labels b := List.getElem_mem hj
    have hcount := bandMask_count_true_eq_zero h
    rw [List.count_eq_zero] at hcount
    cases hval : (bandMask labels b)[j] with
    | false => rfl
    | true => exact absurd (hval ▸ hmem) hcount
  · exact List.getD_eq_default _ _ (le_of_not_lt hj)

/-- The vertex count of a band equals the number of occurrences of its
label in the label array. -/
lemma bandNumVertices_eq_count (labels : List ℤ) (b : ℤ) :
    bandNumVertices labels b = labels.count b := by
  simp only [bandNumVertices, bandVertices, List.count, List.countP_map]
  apply List.countP_congr
  intro x _
  simp [Function.comp]

/-- A 1-D run count is positive as soon as the mask holds some `true`. -/
lemma countRunsAux_pos {mask : List Bool} (h : true ∈ mask) :
    1 ≤ countRunsAux mask false := by
  induction mask with
  | nil => cases h
  | cons a t ih =>
    cases a with
    | true => simp [countRunsAux]
    | false =>
      have ht : true ∈ t := by
        rcases List.mem_cons.mp h with hfalse | ht
        · cases hfalse
        · exact ht
      simpa [countRunsAux] using ih ht

/-- The per-band parcel count is zero exactly when no vertex carries the
band's label. -/
lemma parcelsForBand_eq_zero_iff (labels : List ℤ) (b : ℤ) :
    parcelsForBand labels b = 0 ↔ b ∉ labels := by
  constructor
  · intro hzero hmem
    have htrue : true ∈ bandMask labels b := by
      simp only [bandMask, List.mem_map]
      exact ⟨b, hmem, by simp⟩
    have hcount : (bandMask labels b).count true ≠ 0 := by
      intro habs
      rw [List.count_eq_zero] at habs
      exact habs htrue
    have hrun : 1 ≤ ndimageLabelCount (bandMask labels b) := countRunsAux_pos htrue
    unfold parcelsForBand at hzero
    rw [if_neg hcount] at hzero
    omega
  · intro h
    unfold parcelsForBand
    rw [if_pos (bandMask_count_true_eq_zero h)]

/-! ## Claim C7 -/

/-- C7: a band value carried by no vertex yields parcel count 0 (not an
error) for any band index within `range(levels)`, and the coverage analyzer
returns vertex count 0, vertex percentage 0, covered area 0 and area
percentage 0, for any mesh with nonzero surface area and nonempty label
array. -/
theorem C7_absent_band_zero_statistics :
    (∀ (labels : List ℤ) (levels i : ℕ), i < levels → (i : ℤ) ∉ labels →
      (calculate_parcels_per_band labels levels)[i]? = some 0) ∧
    (∀ (m : Mesh) (labels : List ℤ) (b : ℤ), b ∉ labels → labels ≠ [] →
      meshArea m ≠ 0 →
      calculate_band_coverage m labels b = (0, some 0, 0, some 0)) := by
  constructor
  · intro labels levels i hi hnot
    unfold calculate_parcels_per_band
    rw [List.getElem?_map, List.getElem?_range hi]
    have hz := (parcelsForBand_eq_zero_iff labels (i : ℤ)).mpr hnot
    simp [hz]
  · intro m labels b hnot hne hane
    have hnum : bandNumVertices labels b = 0 := by
      rw [bandNumVertices_eq_count, List.count_eq_zero]
      exact hnot
    have hlen : (labels.length : ℝ) ≠ 0 := by
      simpa using List.length_pos_iff_ne_nil.mpr hne |>.ne'
    have hface : ∀ f : ℕ × ℕ × ℕ, faceInBand labels b f = false := by
      intro f
      unfold faceInBand
      rw [show bandVertices labels b = bandMask labels b from rfl]
      rw [bandMask_getD_false hnot, bandMask_getD_false hnot, bandMask_getD_false hnot]
      rfl
    have htot : bandTotalArea m labels b = 0 := by
      rw [bandTotalArea_eq_filter_sum]
      have : m.faces.filter (faceInBand labels b) = [] := by
        apply List.filter_eq_nil_iff.mpr
        intro f _
        simp [hface f]
      rw [this]
      rfl
    unfold calculate_band_coverage
    rw [hnum, htot]
    simp [fdiv, hlen, hane]

/-- Witness for C7: band 2 occurs nowhere in `[1, 1, 1]`, so over the unit
triangle both the parcel count and all coverage statistics are zero. -/
theorem C7_absent_band_zero_statistics_witness :
    (calculate_parcels_per_band [1, 1, 1] 3)[2]? = some 0 ∧
    calculate_band_coverage unitTriangle [1, 1, 1] 2 = (0, some 0, 0, some 0) :=
  ⟨C7_absent_band_zero_statistics.1 [1, 1, 1] 3 2 (by norm_num) (by decide),
    C7_absent_band_zero_statistics.2 unitTriangle [1, 1, 1] 2 (by decide) (by decide)
      (by rw [unitTriangle_area]; norm_num)⟩

/-! ## Claim C8 -/

/-- C8: over a nonempty label array and a mesh of positive surface area, the
vertex percentages returned by `calculate_band_coverage`, summed over every
distinct label value occurring in the array (the label values partition all
vertices, the "no dominant band" value 0 included when present), equal
exactly 100. -/
theorem C8_vertex_percentages_sum_to_100 (m : Mesh) (labels : List ℤ)
    (hne : labels ≠ []) (_hpos : 0 < meshArea m) :
    (∀ b ∈ labels.dedup,
      (calculate_band_coverage m labels b).2.1
        = some ((bandNumVertices labels b : ℝ) / (labels.length : ℝ) * 100)) ∧
    (labels.dedup.map
      (fun b => ((calculate_band_coverage m labels b).2.1).getD 0)).sum = 100 := by
  have hlen : (labels.length : ℝ) ≠ 0 := by
    simpa using (List.length_pos_iff_ne_nil.mpr hne).ne'
  have hsome : ∀ b : ℤ,
      (calculate_band_coverage m labels b).2.1
        = some ((bandNumVertices labels b : ℝ) / (labels.length : ℝ) * 100) := by
    intro b
    simp [calculate_band_coverage, fdiv, hlen]
  refine ⟨fun b _ => hsome b, ?_⟩
  have hmapeq : labels.dedup.map
        (fun b => ((calculate_band_coverage m labels b).2.1).getD 0)
      = labels.dedup.map
        (fun b => ((labels.count b : ℝ)) * (100 / (labels.length : ℝ))) := by
    apply List.map_congr_left
    intro b _
    rw [hsome b, Option.getD_some, bandNumVertices_eq_count]
    ring
  rw [hmapeq, List.sum_map_mul_right]
  have hcast : (labels.dedup.map (fun b => ((labels.count b : ℝ)))).sum
      = ((labels.dedup.map (fun b => labels.count b)).sum : ℝ) := by
    rw [Nat.cast_list_sum, List.map_map]
    rfl
  rw [hcast, List.sum_map_count_dedup_eq_length]
  field_simp

/-- Witness for C8 on the unit triangle with all vertices labelled 1: the
only distinct label is 1, whose vertex percentage is 100. -/
theorem C8_vertex_percentages_sum_to_100_witness :
    (calculate_band_coverage unitTriangle [1, 1, 1] 1).2.1
      = some ((bandNumVertices [1, 1, 1] 1 : ℝ) / ((([1, 1, 1] : List ℤ)).length : ℝ) * 100) ∧
    ((([1, 1, 1] : List ℤ)).dedup.map
      (fun b => ((calculate_band_coverage unitTriangle [1, 1, 1] b).2.1).getD 0)).sum = 100 :=
  ⟨(C8_vertex_percentages_sum_to_100 unitTriangle [1, 1, 1] (by decide)
      (by rw [unitTriangle_area]; norm_num)).1 1 (by decide),
    (C8_vertex_percentages_sum_to_100 unitTriangle [1, 1, 1] (by decide)
      (by rw [unitTriangle_area]; norm_num)).2⟩

/-! ## Claim C9 -/

/-- C9: `calculate_parcels_per_band` only ever tests the band values
`0 .. levels-1`.  Vertices carrying a negative (sulcal) label are never
counted toward any band: replacing every negative label by any other
negative label leaves the whole result unchanged.  The reserved label 0 is
itself treated as a band: index 0 of the result is exactly the parcel count
of label 0, which is nonzero precisely when some vertex carries label 0. -/
theorem C9_negative_labels_ignored_band0_counted (labels : List ℤ) (levels : ℕ) :
    (∀ labels2 : List ℤ,
      List.Forall₂ (fun a c => a = c ∨ (a < 0 ∧ c < 0)) labels labels2 →
      calculate_parcels_per_band labels levels = calculate_parcels_per_band labels2 levels) ∧
    (0 < levels →
      (calculate_parcels_per_band labels levels)[0]? = some (parcelsForBand labels 0)) ∧
    (parcelsForBand labels 0 = 0 ↔ (0 : ℤ) ∉ labels) := by
  refine ⟨?_, ?_, parcelsForBand_eq_zero_iff labels 0⟩
  · intro labels2 hrel
    have hmask : ∀ i : ℕ, bandMask labels (i : ℤ) = bandMask labels2 (i : ℤ) := by
      intro i
      unfold bandMask
      induction hrel with
      | nil => rfl
      | cons hab _ ih =>
        rename_i a c l1 l2 _
        simp only [List.map_cons, ih]
        congr 1
        rcases hab with rfl | ⟨ha, hc⟩
        · rfl
        · have hai : a ≠ (i : ℤ) := by omega
          have hci : c ≠ (i : ℤ) := by omega
          simp [hai, hci]
    unfold calculate_parcels_per_band
    apply List.map_congr_left
    intro i _
    unfold parcelsForBand
    rw [hmask i]
  · intro hlev
    unfold calculate_parcels_per_band
    rw [List.getElem?_map, List.getElem?_range hlev]
    rfl

/-- Witness for C9: replacing the sulcal label `-2` by `-5` leaves the
parcel counts unchanged, and index 0 of the result is the parcel count of
the reserved label 0. -/
theorem C9_negative_labels_ignored_band0_counted_witness :
    calculate_parcels_per_band [-2, 3, 0] 1 = calculate_parcels_per_band [-5, 3, 0] 1 ∧
    (calculate_parcels_per_band [-2, 3, 0] 1)[0]? = some (parcelsForBand [-2, 3, 0] 0) ∧
    (parcelsForBand [-2, 3, 0] 0 = 0 ↔ (0 : ℤ) ∉ ([-2, 3, 0] : List ℤ)) :=
  ⟨(C9_negative_labels_ignored_band0_counted [-2, 3, 0] 1).1 [-5, 3, 0]
      (by
        refine List.Forall₂.cons (Or.inr ⟨by decide, by decide⟩) ?_
        refine List.Forall₂.cons (Or.inl rfl) ?_
        exact List.Forall₂.cons (Or.inl rfl) List.Forall₂.nil),
    (C9_negative_labels_ignored_band0_counted [-2, 3, 0] 1).2.1 (by decide),
    (C9_negative_labels_ignored_band0_counted [-2, 3, 0] 1).2.2⟩

/-! ## Claim C10: the result record of `process_single_file`
(spangy_analysis.py lines 220-246)

The Python `result = { ... }` dict literal is modelled as the ordered list
of key/value entries the literal writes; Python dict-literal semantics keep,
for a repeated key, the value written last. -/

/-- A value stored in the result record (a string or a number). -/
inductive PyVal where
  | str : String → PyVal
  | num : ℝ → PyVal

/-- Dict-literal lookup: the value of the last entry written under a key,
if any. -/
def pyDictGet (entries : List (String × PyVal)) (k : String) : Option PyVal :=
  ((entries.filter (fun e => e.1 == k)).getLast?).map Prod.snd

/-- How many times the literal writes a given key. -/
def pyDictWriteCount (entries : List (String × PyVal)) (k : String) : ℕ :=
  (entries.filter (fun e => e.1 == k)).length

/-- The entries of the `result` dict literal of `process_single_file`, in
source order, over the already-computed values (`band_vertices`,
`band_vertex_percentages`, `band_areas`, `band_area_percentages` are the
lists built for band indices 4, 5, 6, read at positions 0, 1, 2). -/
noncomputable def resultRecordEntries (participantSession : String)
    (gestationalAge totalMeanCurv gyrificationIndex hullArea volumeMl
      surfaceAreaCm2 afp processingTime : ℝ)
    (bandRelPowers bandVertices2 bandVertexPercentages bandAreas
      bandAreaPercentages : List ℝ) : List (String × PyVal) :=
  [("participant_session", PyVal.str participantSession),
   ("gestational_age", PyVal.num gestationalAge),
   ("total_mean_curvature", PyVal.num totalMeanCurv),
   ("gyrification_index", PyVal.num gyrificationIndex),
   ("hull_area", PyVal.num hullArea),
   ("volume_ml", PyVal.num volumeMl),
   ("surface_area_cm2", PyVal.num surfaceAreaCm2),
   ("analyze_folding_power", PyVal.num afp),
   ("processing_time", PyVal.num processingTime),
   ("B4_band_relative_power", PyVal.num (bandRelPowers.getD 0 0)),
   ("B5_band_relative_power", PyVal.num (bandRelPowers.getD 1 0)),
   ("B6_band_relative_power", PyVal.num (bandRelPowers.getD 2 0)),
   ("B4_number_of_vertices", PyVal.num (bandVertices2.getD 0 0)),
   ("B5_number_of_vertices", PyVal.num (bandVertices2.getD 1 0)),
   ("B5_number_of_vertices", PyVal.num (bandVertices2.getD 2 0)),
   ("B4_vertex_percentage", PyVal.num (bandVertexPercentages.getD 0 0)),
   ("B5_vertex_percentage", PyVal.num (bandVertexPercentages.getD 1 0)),
   ("B6_vertex_percentage", PyVal.num (bandVertexPercentages.getD 2 0)),
   ("B4_surface_area", PyVal.num (bandAreas.getD 0 0)),
   ("B5_surface_area", PyVal.num (bandAreas.getD 1 0)),
   ("B6_surface_area", PyVal.num (bandAreas.getD 2 0)),
   ("B4_surface_area_percentage", PyVal.num (bandAreaPercentages.getD 0 0)),
   ("B5_surface_area_percentage", PyVal.num (bandAreaPercentages.getD 1 0)),
   ("B6_surface_area_percentage", PyVal.num (bandAreaPercentages.getD 2 0))]

/-- C10: the dict literal writes the key `"B5_number_of_vertices"` twice —
once with band 5's vertex count (`band_vertices[1]`) and once with band 6's
(`band_vertices[2]`) — so the final record holds band 6's count under the
B5 field, and no `"B6_number_of_vertices"` field exists at all. -/
theorem C10_duplicate_B5_vertex_key (participantSession : String)
    (gestationalAge totalMeanCurv gyrificationIndex hullArea volumeMl
      surfaceAreaCm2 afp processingTime : ℝ)
    (bandRelPowers bandVertices2 bandVertexPercentages bandAreas
      bandAreaPercentages : List ℝ) :
    pyDictWriteCount (resultRecordEntries participantSession gestationalAge
        totalMeanCurv gyrificationIndex hullArea volumeMl surfaceAreaCm2 afp
        processingTime bandRelPowers bandVertices2 bandVertexPercentages
        bandAreas bandAreaPercentages) "B5_number_of_vertices" = 2 ∧
    pyDictGet (resultRecordEntries participantSession gestationalAge
        totalMeanCurv gyrificationIndex hullArea volumeMl surfaceAreaCm2 afp
        processingTime bandRelPowers bandVertices2 bandVertexPercentages
        bandAreas bandAreaPercentages) "B5_number_of_vertices"
      = some (PyVal.num (bandVertices2.getD 2 0)) ∧
    pyDictGet (resultRecordEntries participantSession gestationalAge
        totalMeanCurv gyrificationIndex hullArea volumeMl surfaceAreaCm2 afp
        processingTime bandRelPowers bandVertices2 bandVertexPercentages
        bandAreas bandAreaPercentages) "B6_number_of_vertices" = none := by
  refine ⟨?_, ?_, ?_⟩ <;>
    simp [resultRecordEntries, pyDictGet, pyDictWriteCount, List.filter]

end Spangy
